import Mathlib

/-!
Verification development for the poem static-site generator
(`generate_html.py`).  Python strings are modelled as `List Char`
(`String` is used for rendered HTML output); Python exceptions are
modelled with `Except String`; the filesystem probe used for video
thumbnails is an injected function `List Char → Bool`; `datetime`
values are modelled as seconds since the Unix epoch (`Nat`).
-/

/-- Whitespace as stripped by Python `str.strip()` (ASCII whitespace;
the corpus format is line oriented so this is the relevant set). -/
def pyIsSpace (c : Char) : Bool :=
  c == ' ' || c == '\t' || c == '\n' || c == '\r' || c == '\x0b' || c == '\x0c'

/-- Left part of Python `str.strip()`: drop leading whitespace. -/
def lstrip (l : List Char) : List Char := l.dropWhile pyIsSpace

/-- Right part of Python `str.strip()`: drop trailing whitespace. -/
def rstrip (l : List Char) : List Char := (l.reverse.dropWhile pyIsSpace).reverse

/-- Python `str.strip()`. -/
def pyStrip (l : List Char) : List Char := rstrip (lstrip l)

/-- Helper for the splitting functions: prepend a character to the first
piece of a split result. -/
def consHead (x : Char) : List (List Char) → List (List Char)
  | [] => [[x]]
  | p :: ps => (x :: p) :: ps

/-- Python `str.split(sep)` for a one-character separator
(`'\n'` in `parse_poem_unit`, `','` for media token lists). -/
def splitChar (sep : Char) : List Char → List (List Char)
  | [] => [[]]
  | c :: rest => if c = sep then [] :: splitChar sep rest else consHead c (splitChar sep rest)

/-- Python `str.split(sep)` for a three-character separator: used for
`content.split('===')` and `block.split('---')`.  Occurrences are found
left to right, non-overlapping, anywhere in the text (not only on lines
of their own). -/
def splitSeq (a b c : Char) : List Char → List (List Char)
  | [] => [[]]
  | [x] => consHead x [[]]
  | [x, y] => consHead x (consHead y [[]])
  | x :: y :: z :: rest =>
    if x = a ∧ y = b ∧ z = c then [] :: splitSeq a b c rest
    else consHead x (splitSeq a b c (y :: z :: rest))

/-- Python `str.split(sep, 1)`: the part before the first separator, and
the part after it when the separator occurs (`none` when it does not). -/
def splitFirst (sep : Char) : List Char → List Char × Option (List Char)
  | [] => ([], none)
  | c :: rest =>
    if c = sep then ([], some rest)
    else
      let r := splitFirst sep rest
      (c :: r.1, r.2)

/-- Python `str.replace(old, new)` for a one-character `old` (all three
replacements in `html_escape` have one-character targets). -/
def pyReplace1 (old : Char) (new : List Char) : List Char → List Char
  | [] => []
  | c :: rest => (if c = old then new else [c]) ++ pyReplace1 old new rest

/-- Concatenation of the lists produced by `f`, in order. -/
def catMap (f : α → List β) : List α → List β
  | [] => []
  | a :: as => f a ++ catMap f as

/-- `mapM` for `Except String`, written with explicit matches: the first
raised exception propagates, exactly like an uncaught Python exception
inside a loop. -/
def mapE (f : α → Except String β) : List α → Except String (List β)
  | [] => .ok []
  | a :: as =>
    match f a with
    | .error e => .error e
    | .ok b =>
      match mapE f as with
      | .error e => .error e
      | .ok bs => .ok (b :: bs)

/-- Whether an `Except` value is a success. -/
def isOkE : Except String α → Bool
  | .ok _ => true
  | .error _ => false

/-- Number of blocks in a successful parse result (0 on error); used
only to state concrete counterexamples without binders. -/
def okLength : Except String (List α) → Nat
  | .ok l => l.length
  | .error _ => 0

/-- View a character list as a `String` (the logical model of `String`
is exactly a list of characters). -/
def ofChars (l : List Char) : String := ⟨l⟩

/-! ## Data model -/

/-- Media placement directive: `top:` or `left:`. -/
inductive Placement where
  | top
  | left
deriving DecidableEq, Repr

/-- Result of `parse_image`: the filename and the optional width.  The
width is kept as the matched digit token, exactly as the Python code
keeps `match.group(2)` as a string. -/
structure MediaInfo where
  filename : List Char
  width : Option (List Char)
deriving DecidableEq, Repr

/-- One `top:`/`left:` directive: a placement and its media items. -/
structure MediaGroup where
  placement : Placement
  items : List MediaInfo
deriving DecidableEq, Repr

/-- Structured data of one poem unit (`parse_poem_unit`'s result dict). -/
structure PoemUnit where
  links : List (List Char)
  media : List MediaGroup
  audio : List (List Char)
  poem_lines : List (List Char)
deriving DecidableEq, Repr

/-- Structured data of one poem block: its units plus the assigned
`poem_number`. -/
structure PoemBlock where
  poem_number : Nat
  units : List PoemUnit
deriving DecidableEq, Repr

/-! ## Markup parser -/

/-- `parse_image`: Python
`re.match(r"([^[\]]+)(?:\[(\d+)\])?", img_str.strip())`.
`re.match` anchors only at the start, so the match fails exactly when the
stripped string is empty or starts with a bracket; otherwise group 1 is
the longest non-bracket run from the start (greedy, no backtracking is
possible past a bracket), group 2 matches only when `[digits]` follows
that run immediately, and any remaining text is ignored. -/
def parse_image (img_str : List Char) : Except String MediaInfo :=
  let t := pyStrip img_str
  match t with
  | [] => .error ("Invalid image string: " ++ ofChars img_str)
  | c :: _ =>
    if c = '[' ∨ c = ']' then .error ("Invalid image string: " ++ ofChars img_str)
    else
      let f := t.takeWhile (fun ch => !(ch == '[' || ch == ']'))
      let rest := t.dropWhile (fun ch => !(ch == '[' || ch == ']'))
      let width : Option (List Char) :=
        match rest with
        | '[' :: r =>
          let ds := r.takeWhile Char.isDigit
          if ds ≠ [] ∧ (r.drop ds.length).head? = some ']' then some ds else none
        | _ => none
      .ok ⟨pyStrip f, width⟩

/-- Media tokens of a `top:`/`left:` remainder:
`[m.strip() for m in rest.split(',') if m.strip()]`. -/
def media_tokens (rest : List Char) : List (List Char) :=
  ((splitChar ',' rest).map pyStrip).filter (fun m => m ≠ [])

/-- What one source line contributes to a poem unit. -/
inductive LineItem where
  | link (url : List Char)
  | audioFile (a : List Char)
  | mediaGroup (g : MediaGroup)
  | text (l : List Char)
deriving DecidableEq, Repr

/-- One iteration of `parse_poem_unit`'s line loop: split on the first
colon, strip the head, and dispatch on `link` / `audio` / `top` / `left`;
any other line (including one with no colon) is poem text, kept verbatim. -/
def classify_line (line : List Char) : Except String LineItem :=
  let parts := splitFirst ':' line
  match parts.2 with
  | some rest =>
    let pfx := pyStrip parts.1
    if pfx = ("link").data then .ok (.link (pyStrip rest))
    else if pfx = ("audio").data then .ok (.audioFile (pyStrip rest))
    else if pfx = ("top").data ∨ pfx = ("left").data then
      match mapE parse_image (media_tokens rest) with
      | .error e => .error e
      | .ok items =>
        .ok (.mediaGroup ⟨if pfx = ("top").data then .top else .left, items⟩)
    else .ok (.text line)
  | none => .ok (.text line)

/-- Append one classified line to the accumulating unit (each of the four
kinds keeps source order within its own list). -/
def addItem (item : LineItem) (u : PoemUnit) : PoemUnit :=
  match item with
  | .link url => { u with links := url :: u.links }
  | .audioFile a => { u with audio := a :: u.audio }
  | .mediaGroup g => { u with media := g :: u.media }
  | .text l => { u with poem_lines := l :: u.poem_lines }

/-- The line loop of `parse_poem_unit`.  The earlier line is classified
first, so the first bad media token raises, as in Python. -/
def parse_unit_lines : List (List Char) → Except String PoemUnit
  | [] => .ok ⟨[], [], [], []⟩
  | line :: rest =>
    match classify_line line with
    | .error e => .error e
    | .ok item =>
      match parse_unit_lines rest with
      | .error e => .error e
      | .ok u => .ok (addItem item u)

/-- `parse_poem_unit`: strip the unit, split into lines, and fold the
line loop.  (The Python `if not lines` branch is dead code: `split('\n')`
never returns an empty list.) -/
def parse_poem_unit (poem_unit : List Char) : Except String PoemUnit :=
  parse_unit_lines (splitChar '\n' (pyStrip poem_unit))

/-- `[b.strip() for b in content.split('===') if b.strip()]`. -/
def block_strings (content : List Char) : List (List Char) :=
  ((splitSeq '=' '=' '=' content).map pyStrip).filter (fun b => b ≠ [])

/-- `[u.strip() for u in block.split('---') if u.strip()]`. -/
def unit_strings (block : List Char) : List (List Char) :=
  ((splitSeq '-' '-' '-' block).map pyStrip).filter (fun u => u ≠ [])

/-- The `for i, block in enumerate(content_blocks)` loop of
`parse_poems_to_structured_data`: block `i` gets
`poem_number = total_poems - i`. -/
def parse_blocks_indexed (total : Nat) : Nat → List (List Char) → Except String (List PoemBlock)
  | _, [] => .ok []
  | i, b :: bs =>
    match mapE parse_poem_unit (unit_strings b) with
    | .error e => .error e
    | .ok units =>
      match parse_blocks_indexed total (i + 1) bs with
      | .error e => .error e
      | .ok rest => .ok (⟨total - i, units⟩ :: rest)

/-- `parse_poems_to_structured_data`: split the full text into blocks,
parse each block's units, and number the blocks in reverse. -/
def parse_poems_to_structured_data (content : List Char) : Except String (List PoemBlock) :=
  parse_blocks_indexed (block_strings content).length 0 (block_strings content)

/-! ## Media classifier -/

/-- `os.path.basename` for the POSIX paths used here: the part after the
last `/`. -/
def afterLastSlash (p : List Char) : List Char :=
  (p.reverse.takeWhile (fun c => c ≠ '/')).reverse

/-- `os.path.splitext`: split off the extension at the last dot of the
final path component, except that a run of leading dots (as in
`.bashrc`) carries no extension. -/
def splitext_pair (p : List Char) : List Char × List Char :=
  let base := afterLastSlash p
  let dir := p.take (p.length - base.length)
  let lead := base.takeWhile (fun c => c = '.')
  let core := base.drop lead.length
  if core.any (fun c => c = '.') then
    let extLen := (core.reverse.takeWhile (fun c => c ≠ '.')).length + 1
    (dir ++ lead ++ core.take (core.length - extLen), core.drop (core.length - extLen))
  else (p, [])

/-- Root part of `os.path.splitext`. -/
def splitext_root (p : List Char) : List Char := (splitext_pair p).1

/-- Extension part of `os.path.splitext` (with the dot). -/
def splitext_ext (p : List Char) : List Char := (splitext_pair p).2

/-- Python `str.lower()` (ASCII suffices for the extension sets). -/
def toLowerL (l : List Char) : List Char := l.map Char.toLower

/-- `is_video_file`: lowercased extension against the fixed set. -/
def is_video_file (filename : List Char) : Bool :=
  let ext := toLowerL (splitext_ext filename)
  ext = (".mp4").data ∨ ext = (".webm").data ∨ ext = (".ogg").data ∨ ext = (".mov").data

/-- `get_audio_mime_type`: extension lookup, default `audio/mpeg`. -/
def get_audio_mime_type (filename : List Char) : String :=
  let ext := toLowerL (splitext_ext filename)
  if ext = (".mp3").data then "audio/mpeg"
  else if ext = (".wav").data then "audio/wav"
  else if ext = (".ogg").data then "audio/ogg"
  else if ext = (".m4a").data then "audio/mp4"
  else if ext = (".aac").data then "audio/aac"
  else if ext = (".webm").data then "audio/webm"
  else if ext = (".flac").data then "audio/flac"
  else "audio/mpeg"

/-- `get_video_mime_type`: extension lookup, default `video/mp4`. -/
def get_video_mime_type (filename : List Char) : String :=
  let ext := toLowerL (splitext_ext filename)
  if ext = (".mp4").data then "video/mp4"
  else if ext = (".webm").data then "video/webm"
  else if ext = (".ogg").data then "video/ogg"
  else if ext = (".mov").data then "video/quicktime"
  else "video/mp4"

/-! ## HTML renderer -/

/-- `html_escape`: three successive `str.replace` passes, in source
order (`&` first, then `<`, then `>`). -/
def html_escape (text : List Char) : List Char :=
  pyReplace1 '>' (("&gt;").data)
    (pyReplace1 '<' (("&lt;").data)
      (pyReplace1 '&' (("&amp;").data) text))

/-- Single-pass character escaping, stated from the spec's description
of the escaping ("each occurrence replaced exactly once, nothing else
escaped"); compared against `html_escape` in the C5 theorem. -/
def esc_char (c : Char) : List Char :=
  if c = '&' then ("&amp;").data
  else if c = '<' then ("&lt;").data
  else if c = '>' then ("&gt;").data
  else [c]

/-- One-pass escaping of a whole string (spec-side definition). -/
def html_escape_onepass : List Char → List Char
  | [] => []
  | c :: cs => esc_char c ++ html_escape_onepass cs

/-- Python truthiness of the optional width string (`None` and `""` are
falsy). -/
def widthTruthy : Option (List Char) → Bool
  | some ds => ds ≠ []
  | none => false

/-- Digits of the width (only consulted when `widthTruthy`). -/
def widthChars : Option (List Char) → List Char
  | some ds => ds
  | none => []

/-- `generate_media_html`: one `<img>`/`<video>` for the paginated
pages. -/
def generate_media_html (m : MediaInfo) : String :=
  let alt := pyReplace1 '_' [' '] (splitext_root (afterLastSlash m.filename))
  let style : String :=
    if widthTruthy m.width then " style=\"width:" ++ ofChars (widthChars m.width) ++ "px\"" else ""
  if is_video_file m.filename then
    "<video src=\"images/" ++ ofChars m.filename ++ "\" type=\"" ++ get_video_mime_type m.filename
      ++ "\" controls loop" ++ style
      ++ " preload=\"metadata\">Your browser does not support the video tag.</video>"
  else
    "<img src=\"images/" ++ ofChars m.filename ++ "\" alt=\"" ++ ofChars alt
      ++ "\" class=\"poem-image\"" ++ style ++ ">"

/-- `has_left_placement`. -/
def has_left_placement (u : PoemUnit) : Bool :=
  u.media.any (fun g => g.placement = Placement.left)

/-- `generate_unit_html`: links, then (when present) the left image
columns, then the escaped poem text in a `<pre>` block. -/
def generate_unit_html (u : PoemUnit) : String :=
  let linksHtml := String.join (u.links.map fun url =>
    "  <a href=\"" ++ ofChars url ++ "\" target=\"_blank\">" ++ ofChars url ++ "</a>\n")
  let leftHtml :=
    if has_left_placement u then
      String.join (u.media.map fun g =>
        if g.placement = Placement.left then
          "  <div class=\"image-column\">\n"
            ++ String.join (g.items.map fun m => "    " ++ generate_media_html m ++ "\n")
            ++ "  </div>\n"
        else "")
    else ""
  let preHtml :=
    if u.poem_lines ≠ [] then
      "  <pre>" ++ ofChars (html_escape (List.intercalate ['\n'] u.poem_lines)) ++ "</pre>\n"
    else ""
  (linksHtml ++ leftHtml) ++ preHtml

/-- The per-unit body of `generate_block_html`'s loop: top image rows,
then the `poem-unit` container, then the audio players. -/
def full_unit_html (u : PoemUnit) : String :=
  let unit_html := generate_unit_html u
  let unit_class : String :=
    if has_left_placement u then "poem-unit left-image" else "poem-unit"
  let top_html := String.join (u.media.map fun g =>
    if g.placement = Placement.top then
      "  <div class=\"image-row\">\n"
        ++ String.join (g.items.map fun m => "    " ++ generate_media_html m ++ "\n")
        ++ "  </div>\n"
    else "")
  let audio_html := String.join (u.audio.map fun a =>
    "  <audio controls preload=\"metadata\" style=\"width: 100%; max-width: 400px; margin: 10px 0;\">\n"
      ++ "    <source src=\"audio/" ++ ofChars a ++ "\" type=\"" ++ get_audio_mime_type a ++ "\">\n"
      ++ "    Your browser does not support the audio element.\n"
      ++ "  </audio>\n")
  (if top_html ≠ "" then top_html else "")
    ++ ("<div class=\"" ++ unit_class ++ "\">\n" ++ unit_html ++ "</div>")
    ++ (if audio_html ≠ "" then "\n" ++ audio_html else "")

/-- The visible ordinal label of a block. -/
def poem_number_html (b : PoemBlock) : String :=
  "<div class=\"poem-number\">" ++ Nat.repr b.poem_number ++ "</div>\n"

/-- `generate_block_html`: the `poem-block` container with its
`id="poem-<n>"` anchor, the ordinal label, and the units joined by
`<br>` separators (the `poem_id_attr` f-string is inlined into the
opening tag). -/
def generate_block_html (b : PoemBlock) : String :=
  ("<div class=\"poem-block\" id=\"poem-" ++ Nat.repr b.poem_number ++ "\">\n")
    ++ (poem_number_html b
        ++ String.intercalate ("\n<br>\n") (b.units.map full_unit_html)
        ++ "\n</div>")

/-! ## Table of contents -/

/-- Characters removed from the end of an excerpt line
(`re.sub(r'[.!?,:;]$', '', first_line)` removes at most one of them). -/
def punct_chars : List Char := ['.', '!', '?', ',', ':', ';']

/-- The trailing-punctuation trim of `get_first_poem_line`. -/
def trimPunct (s : List Char) : List Char :=
  match s.getLast? with
  | some c => if c ∈ punct_chars then s.dropLast else s
  | none => s

/-- The inner loop of `get_first_poem_line`: the first stripped-nonblank
line of a list of lines. -/
def first_nonblank : List (List Char) → Option (List Char)
  | [] => none
  | l :: ls =>
    let t := pyStrip l
    if t ≠ [] then some t else first_nonblank ls

/-- The unit loop of `get_first_poem_line`: a unit with a nonempty
`poem_lines` list is scanned for a nonblank line; when none is found the
scan continues with the following units. -/
def get_first_poem_line_units : List PoemUnit → List Char
  | [] => ("Untitled...").data
  | u :: us =>
    if u.poem_lines ≠ [] then
      match first_nonblank u.poem_lines with
      | some t => trimPunct t ++ ("...").data
      | none => get_first_poem_line_units us
    else get_first_poem_line_units us

/-- `get_first_poem_line`. -/
def get_first_poem_line (b : PoemBlock) : List Char :=
  get_first_poem_line_units b.units

/-- The image extensions probed for a video's sibling thumbnail. -/
def probe_exts : List (List Char) :=
  [(".jpg").data, (".jpeg").data, (".png").data, (".gif").data, (".webp").data]

/-- The extension loop of `get_first_image`: first candidate
`base ++ ext` for which `probe ("images/" ++ candidate)` holds
(`probe` models `os.path.exists`). -/
def firstExisting (probe : List Char → Bool) (base : List Char) :
    List (List Char) → Option (List Char)
  | [] => none
  | e :: es =>
    let img := base ++ e
    if probe (("images/").data ++ img) then some img else firstExisting probe base es

/-- The media-group loop of `get_first_image`: the first group with
items yields its first item; an image is used directly, a video is
replaced by an existing sibling image or the scan moves on. -/
def scan_groups (probe : List Char → Bool) : List MediaGroup → Option (List Char)
  | [] => none
  | g :: gs =>
    match g.items with
    | [] => scan_groups probe gs
    | m :: _ =>
      if is_video_file m.filename = false then some m.filename
      else
        match firstExisting probe (splitext_root m.filename) probe_exts with
        | some img => some img
        | none => scan_groups probe gs

/-- The unit loop of `get_first_image`. -/
def scan_units (probe : List Char → Bool) : List PoemUnit → Option (List Char)
  | [] => none
  | u :: us =>
    if u.media ≠ [] then
      match scan_groups probe u.media with
      | some f => some f
      | none => scan_units probe us
    else scan_units probe us

/-- `get_first_image`, with the filesystem existence check injected. -/
def get_first_image (probe : List Char → Bool) (b : PoemBlock) : Option (List Char) :=
  scan_units probe b.units

/-! ## Pagination -/

/-- `POEMS_PER_PAGE = 5`. -/
def POEMS_PER_PAGE : Nat := 5

/-- The output filename of a page: `index.html` for page 1, else
`page<n>.html` (computed identically in `write_page`,
`write_table_of_contents` and `write_atom_feed`). -/
def page_filename (page_num : Nat) : String :=
  if page_num = 1 then "index.html" else "page" ++ Nat.repr page_num ++ ".html"

/-- `total_pages = (len(blocks) + POEMS_PER_PAGE - 1) // POEMS_PER_PAGE`. -/
def total_pages (n : Nat) : Nat := (n + POEMS_PER_PAGE - 1) / POEMS_PER_PAGE

/-- The slice `structured_blocks[start:end]` handed to `write_page` for
page `page_num` (`start = (page_num-1)*POEMS_PER_PAGE`). -/
def page_slice (blocks : List PoemBlock) (page_num : Nat) : List PoemBlock :=
  (blocks.drop ((page_num - 1) * POEMS_PER_PAGE)).take POEMS_PER_PAGE

/-- One entry (`<li>`) of the table of contents, for the block at source
index `i`:  thumbnail (when found), bold ordinal, and a link to
`<page>#poem-<n>` whose text is the escaped excerpt. -/
def toc_entry (probe : List Char → Bool) (i : Nat) (b : PoemBlock) : String :=
  let page_file := page_filename (i / POEMS_PER_PAGE + 1)
  let first_line := get_first_poem_line b
  let n := b.poem_number
  match get_first_image probe b with
  | some first_image =>
    "      <li style=\"display: flex; align-items: center; margin-bottom: 0.5em;\"><span style=\"font-weight: bold; min-width: 2.5em; margin-right: 0.5em;\">"
      ++ Nat.repr n ++ ".</span>"
      ++ ("<img src=\"images/" ++ ofChars first_image
          ++ "\" alt=\"\" style=\"max-width: 96px; max-height: 96px; margin-right: 0.5em; vertical-align: middle; border-radius: 3px; cursor: default;\">")
      ++ "<a href=\"" ++ page_file ++ "#poem-" ++ Nat.repr n ++ "\">"
      ++ ofChars (html_escape first_line) ++ "</a></li>\n"
  | none =>
    "      <li style=\"display: flex; align-items: center; margin-bottom: 0.5em;\"><span style=\"font-weight: bold; min-width: 2.5em; margin-right: 0.5em;\">"
      ++ Nat.repr n ++ ".</span>"
      ++ "<a href=\"" ++ page_file ++ "#poem-" ++ Nat.repr n ++ "\">"
      ++ ofChars (html_escape first_line) ++ "</a></li>\n"

/-! ## Page writing

`write_page` performs a sequence of `f.write` calls; each call is
modelled as one element of a list of chunks, in order.  `css_version`
stands for `int(time.time())`. -/

/-- The chunks written by `write_html_header`. -/
def write_html_header_chunks (css_version : Nat) (title : String)
    (show_toc_link : Bool) : List String :=
  [ "<!DOCTYPE html>\n",
    "<html lang=\"en\">\n",
    "<head>\n",
    "  <meta charset=\"UTF-8\">\n",
    "  <title>" ++ title ++ "</title>\n",
    "  <meta http-equiv=\"Cache-Control\" content=\"no-store, no-cache, must-revalidate\">\n",
    "  <meta http-equiv=\"Pragma\" content=\"no-cache\">\n",
    "  <meta http-equiv=\"Expires\" content=\"0\">\n",
    "  <link rel=\"stylesheet\" href=\"style.css?v=" ++ Nat.repr css_version ++ "\">\n",
    "  <link rel=\"alternate\" type=\"application/atom+xml\" title=\"Everyday Majestic Musings\" href=\"atom.xml\">\n",
    "</head>\n",
    "<body>\n",
    "  <header class=\"banner\">\n",
    "    <h1><a href=\"/\" style=\"color: inherit; text-decoration: none;\">Everyday Majestic Musings</a></h1>\n",
    "    <" ++ (if show_toc_link then "a href=\"poems.html\"" else "div")
      ++ " class=\"table-of-contents-link\""
      ++ (if show_toc_link then "" else " style=\"visibility: hidden;\"")
      ++ ">Go to Table of Contents</" ++ (if show_toc_link then "a" else "div") ++ ">\n",
    "  </header>\n" ]

/-- The browser-side script written by `write_image_enlargement_script`.
Its body is a fixed JavaScript text with no bearing on any claim; it is
kept abstract here as a fixed placeholder string. -/
def image_enlargement_script_body : String :=
  "(fixed browser-side JavaScript for image enlargement and overflow indicators)"

/-- The `prev` link filename in `write_page`'s navigation. -/
def prev_file (page_num : Nat) : String :=
  if page_num = 2 then "index.html" else "page" ++ Nat.repr (page_num - 1) ++ ".html"

/-- The chunks written by `write_page`, one per `f.write` call: header,
`<main>`, one chunk per block (its HTML plus an `<hr>`), `The end.` on
the final page only, the navigation, the feed subscription footer, the
script, and the closing tags. -/
def write_page_chunks (css_version : Nat) (blocks : List PoemBlock)
    (page_num total_pages : Nat) : List String :=
  write_html_header_chunks css_version ("Everyday Majestic Musings") true
  ++ ["  <main>\n"]
  ++ blocks.map (fun b => generate_block_html b ++ "\n    <hr>\n")
  ++ (if page_num = total_pages then ["The end.\n"] else [])
  ++ ["<div class=\"pagination\" style=\"text-align:center;margin:2em 0 1em 0;font-size:1.2em;\">\n"]
  ++ (if 1 < page_num then ["<a href=\"" ++ prev_file page_num ++ "\">&laquo; Prev</a> "] else [])
  ++ [" Page " ++ Nat.repr page_num ++ " of " ++ Nat.repr total_pages ++ " "]
  ++ (if page_num < total_pages then
        ["<a href=\"page" ++ Nat.repr (page_num + 1) ++ ".html\">Next &raquo;</a>"] else [])
  ++ [ "</div>\n",
       "<div style=\"text-align:center;margin:2em 0 1em 0;\">\n",
       "<a href=\"atom.xml\" style=\"color: #6b4c7a; text-decoration: none; font-size: 0.9em;\">\n",
       "<img src=\"images/Feed-icon.svg\" alt=\"Feed icon\" class=\"feed-icon\" style=\"width: 16px; height: 16px; margin-right: 0.3em; vertical-align: middle;\">\n",
       "Subscribe via Atom</a>\n",
       "</div>\n",
       "  </main>\n" ]
  ++ ["  <script>\n", image_enlargement_script_body, "  </script>\n"]
  ++ ["</body>\n", "</html>\n"]

/-- The page files written by `main`: filename and chunk list for pages
`1 .. total_pages`, each receiving its slice of the corpus. -/
def main_pages (css_version : Nat) (blocks : List PoemBlock) : List (String × List String) :=
  (List.range (total_pages blocks.length)).map (fun j =>
    (page_filename (j + 1),
     write_page_chunks css_version (page_slice blocks (j + 1)) (j + 1)
       (total_pages blocks.length)))

/-! ## Atom feed -/

/-- Seconds in a day (`timedelta(days=1)`). -/
def seconds_per_day : Nat := 86400

/-- The synthetic entry timestamp
`datetime(1970, 1, 1, tzinfo=timezone.utc) + timedelta(days=poem_number)`,
as seconds since the epoch. -/
def atom_entry_updated (poem_number : Nat) : Nat :=
  0 + seconds_per_day * poem_number

/-- Python truthiness helper for the feed's media style rule. -/
def atom_media_style (placement : Placement) (w : Option (List Char)) : String :=
  if placement = Placement.left ∧ widthTruthy w = false then " style=\"width:280px\""
  else if widthTruthy w then " style=\"width:" ++ ofChars (widthChars w) ++ "px\""
  else ""

/-- One media item inside a feed entry's content (absolute URLs). -/
def atom_media_html (placement : Placement) (m : MediaInfo) : String :=
  let style := atom_media_style placement m.width
  if is_video_file m.filename then
    "<p><video src=\"https://invariablyhappy.com/images/" ++ ofChars m.filename
      ++ "\" type=\"" ++ get_video_mime_type m.filename
      ++ "\" controls preload=\"metadata\"" ++ style
      ++ ">Your browser does not support the video tag.</video></p>"
  else
    "<p><img src=\"https://invariablyhappy.com/images/" ++ ofChars m.filename
      ++ "\" alt=\"" ++ ofChars (splitext_root m.filename) ++ "\"" ++ style ++ "></p>"

/-- The content pieces one unit contributes to a feed entry. -/
def atom_unit_content (u : PoemUnit) : List String :=
  (u.links.map fun url => "<p><a href=\"" ++ ofChars url ++ "\">" ++ ofChars url ++ "</a></p>")
  ++ catMap (fun g => g.items.map (atom_media_html g.placement)) u.media
  ++ (if u.poem_lines ≠ [] then
        ["<pre>" ++ ofChars (html_escape (List.intercalate ['\n'] u.poem_lines)) ++ "</pre>"]
      else [])
  ++ (u.audio.map fun a =>
        "<p><audio controls preload=\"metadata\"><source src=\"https://invariablyhappy.com/audio/"
          ++ ofChars a ++ "\" type=\"" ++ get_audio_mime_type a
          ++ "\">Your browser does not support the audio element.</audio></p>")

/-- `generate_atom_entry_content`. -/
def generate_atom_entry_content (b : PoemBlock) : String :=
  String.intercalate "\n" (catMap atom_unit_content b.units)

/-- One `<entry>` element of the feed. -/
structure AtomEntry where
  title : String
  id : String
  updated : Nat
  link_href : String
  content : String
deriving DecidableEq, Repr

/-- The `<feed>` element. -/
structure AtomFeed where
  title : String
  id : String
  updated : Nat
  author_name : String
  entries : List AtomEntry
deriving DecidableEq, Repr

/-- The feed entry for the block at source index `i`: title and id are
`str(poem_number)`, the timestamp is the synthetic one, and the link
points at `<page>#poem-<n>`. -/
def atom_entry (i : Nat) (b : PoemBlock) : AtomEntry :=
  let n := b.poem_number
  let page_file := page_filename (i / POEMS_PER_PAGE + 1)
  { title := Nat.repr n
    id := Nat.repr n
    updated := atom_entry_updated n
    link_href := "https://invariablyhappy.com/" ++ page_file ++ "#poem-" ++ Nat.repr n
    content := generate_atom_entry_content b }

/-- The `enumerate` loop of `write_atom_feed`'s entry generation. -/
def atom_entries_from : Nat → List PoemBlock → List AtomEntry
  | _, [] => []
  | i, b :: bs => atom_entry i b :: atom_entries_from (i + 1) bs

/-- `write_atom_feed`: fixed identity, the wall-clock feed-level
`updated` (`now`, from `datetime.now`), and one entry per block. -/
def write_atom_feed (now : Nat) (blocks : List PoemBlock) : AtomFeed :=
  { title := "Everyday Majestic Musings"
    id := "https://invariablyhappy.com/"
    updated := now
    author_name := "Avi"
    entries := atom_entries_from 0 blocks }

/-! ## Token extraction (spec-side view of the parser's media tokens) -/

/-- The media tokens of one line, extracted by the same colon split and
directive test as `classify_line` (tokens exist only on `top:`/`left:`
lines). -/
def line_media_tokens (line : List Char) : List (List Char) :=
  let parts := splitFirst ':' line
  match parts.2 with
  | some rest =>
    let pfx := pyStrip parts.1
    if pfx = ("top").data ∨ pfx = ("left").data then media_tokens rest else []
  | none => []

/-- All media tokens of one unit string. -/
def unit_media_tokens (u : List Char) : List (List Char) :=
  catMap line_media_tokens (splitChar '\n' (pyStrip u))

/-- All media tokens of the whole corpus, in parse order. -/
def all_media_tokens (content : List Char) : List (List Char) :=
  catMap (fun b => catMap unit_media_tokens (unit_strings b)) (block_strings content)

-- Equality of parse results is decidable (used by the concrete example
-- theorems).
deriving instance DecidableEq for Except

/-! ## Concrete demonstration corpus (used by witnesses) -/

/-- A two-block demonstration input. -/
def demoContent : List Char := ("a===b").data

/-- The parse of `demoContent`: two blocks, numbered 2 and 1. -/
def demoBlocks : List PoemBlock :=
  [⟨2, [⟨[], [], [], [['a']]⟩]⟩, ⟨1, [⟨[], [], [], [['b']]⟩]⟩]

/-! ## Shared lemmas: strings and stripping -/

/-- `String` append acts as list append on the underlying characters. -/
theorem data_append (s t : String) : (s ++ t).data = s.data ++ t.data := by
  cases s; cases t; rfl

/-- `String` append adds lengths. -/
theorem length_append_str (s t : String) : (s ++ t).length = s.length + t.length := by
  cases s; cases t; simp [String.length, String.append]

/-- The characters of `ofChars l` are `l`. -/
theorem ofChars_data (l : List Char) : (ofChars l).data = l := rfl

/-- `dropWhile` keeps a list whose first element fails the predicate. -/
theorem dw_head {q : Char → Bool} : ∀ {l : List Char} {c : Char} {t : List Char},
    l.dropWhile q = c :: t → q c = false := by
  intro l
  induction l with
  | nil => intro c t h; simp [List.dropWhile] at h
  | cons x xs ih =>
    intro c t h
    by_cases hx : q x
    · exact ih (by simpa [List.dropWhile, hx] using h)
    · rw [List.dropWhile_cons_of_neg (by simpa using hx)] at h
      cases h
      simpa using hx

/-- Everything in `takeWhile` satisfies the predicate. -/
theorem tw_mem {q : Char → Bool} : ∀ {l : List Char} {c : Char},
    c ∈ l.takeWhile q → q c = true := by
  intro l
  induction l with
  | nil => intro c h; simp [List.takeWhile] at h
  | cons x xs ih =>
    intro c h
    by_cases hx : q x
    · rw [List.takeWhile_cons_of_pos hx] at h
      rcases List.mem_cons.mp h with h | h
      · subst h; exact hx
      · exact ih h
    · rw [List.takeWhile_cons_of_neg (by simpa using hx)] at h
      simp at h

/-- `takeWhile` stops exactly at the first failing element. -/
theorem tw_all_stop {q : Char → Bool} : ∀ (xs : List Char) {y : Char} (ys : List Char),
    (∀ x ∈ xs, q x = true) → q y = false → (xs ++ y :: ys).takeWhile q = xs := by
  intro xs
  induction xs with
  | nil => intro y ys _ hy; simp [List.takeWhile_cons_of_neg (by simpa using hy)]
  | cons x xs ih =>
    intro y ys hall hy
    have hx : q x = true := hall x (by simp)
    simp only [List.cons_append, List.takeWhile_cons_of_pos hx]
    rw [ih ys (fun a ha => hall a (by simp [ha])) hy]

/-- Dropping as many elements as `takeWhile` keeps gives `dropWhile`. -/
theorem drop_tw_length (q : Char → Bool) : ∀ (l : List Char),
    l.drop (l.takeWhile q).length = l.dropWhile q := by
  intro l
  induction l with
  | nil => rfl
  | cons x xs ih =>
    by_cases hx : q x
    · simp [List.takeWhile_cons_of_pos hx, List.dropWhile_cons_of_pos hx, ih]
    · simp [List.takeWhile_cons_of_neg (by simpa using hx),
        List.dropWhile_cons_of_neg (by simpa using hx)]

/-- The strip result sits at the end of `lstrip`: the key reverse
identity behind the strip lemmas. -/
theorem strip_tail_decomp (l : List Char) :
    pyStrip l ++ ((lstrip l).reverse.takeWhile pyIsSpace).reverse = lstrip l := by
  have h3 := List.takeWhile_append_dropWhile pyIsSpace (lstrip l).reverse
  show ((lstrip l).reverse.dropWhile pyIsSpace).reverse ++ _ = _
  rw [← List.reverse_append, h3, List.reverse_reverse]

/-- `pyStrip l` occurs inside `l`: `l = s ++ pyStrip l ++ t`. -/
theorem strip_decomp (l : List Char) : ∃ s t, s ++ (pyStrip l ++ t) = l := by
  refine ⟨l.takeWhile pyIsSpace, ((lstrip l).reverse.takeWhile pyIsSpace).reverse, ?_⟩
  rw [strip_tail_decomp l]
  exact List.takeWhile_append_dropWhile pyIsSpace l

/-- The first character of a stripped string is not whitespace. -/
theorem strip_head_nospace {l : List Char} {c : Char} {t : List Char}
    (h : pyStrip l = c :: t) : pyIsSpace c = false := by
  have h4 := strip_tail_decomp l
  rw [h] at h4
  rw [List.cons_append] at h4
  have h6 : l.dropWhile pyIsSpace
      = c :: (t ++ ((lstrip l).reverse.takeWhile pyIsSpace).reverse) := h4.symm
  exact dw_head h6

/-- The last character of a stripped string is not whitespace. -/
theorem strip_last_nospace {l : List Char} {c : Char}
    (h : (pyStrip l).getLast? = some c) : pyIsSpace c = false := by
  have h1 : (pyStrip l).getLast? = ((lstrip l).reverse.dropWhile pyIsSpace).head? := by
    show (rstrip (lstrip l)).getLast? = _
    rw [rstrip, List.getLast?_reverse]
  rw [h1] at h
  rcases hd : (lstrip l).reverse.dropWhile pyIsSpace with _ | ⟨c', t'⟩
  · rw [hd] at h; simp at h
  · rw [hd] at h
    simp at h
    subst h
    exact dw_head hd

/-- A string with no whitespace at either end strips to itself. -/
theorem strip_of_clean {l : List Char}
    (hh : ∀ c t, l = c :: t → pyIsSpace c = false)
    (hl : ∀ c, l.getLast? = some c → pyIsSpace c = false) : pyStrip l = l := by
  have h1 : lstrip l = l := by
    cases hl' : l with
    | nil => simp [lstrip]
    | cons c t =>
      have := hh c t hl'
      simp [lstrip, List.dropWhile_cons_of_neg (by simpa using this)]
  show rstrip (lstrip l) = l
  rw [h1]
  cases hr : l.reverse with
  | nil =>
    have : l = [] := by simpa using congrArg List.reverse hr
    simp [rstrip, this]
  | cons c t =>
    have hc : l.getLast? = some c := by
      rw [← List.head?_reverse, hr]; rfl
    have := hl c hc
    have h2 : l = t.reverse ++ [c] := by simpa using congrArg List.reverse hr
    simp [rstrip, hr, List.dropWhile_cons_of_neg (by simpa using this)]
    exact h2.symm

/-- Stripping is idempotent. -/
theorem pyStrip_idem (l : List Char) : pyStrip (pyStrip l) = pyStrip l := by
  cases hs : pyStrip l with
  | nil => simp [pyStrip, lstrip, rstrip]
  | cons c t =>
    rw [← hs]
    refine strip_of_clean ?_ ?_
    · intro c' t' h'; exact strip_head_nospace h'
    · intro c' h'; exact strip_last_nospace h'

/-! ## Shared lemmas: splitting -/

/-- `x` occurs contiguously inside `l`. -/
def InfixOf (x l : List Char) : Prop := ∃ s t, s ++ (x ++ t) = l

/-- Occurring inside a part that occurs inside `l` means occurring
inside `l`. -/
theorem infixOf_trans {x m l : List Char} (h1 : InfixOf x m) (h2 : InfixOf m l) :
    InfixOf x l := by
  obtain ⟨s1, t1, h1⟩ := h1
  obtain ⟨s2, t2, h2⟩ := h2
  exact ⟨s2 ++ s1, t1 ++ t2, by rw [← h2, ← h1]; simp⟩

/-- An occurrence is no longer than its host. -/
theorem infixOf_length_le {x l : List Char} (h : InfixOf x l) : x.length ≤ l.length := by
  obtain ⟨s, t, h⟩ := h
  have := congrArg List.length h
  simp [List.length_append] at this
  omega

/-- `splitSeq` never returns an empty list of pieces. -/
theorem splitSeq_ne_nil (a b c : Char) : ∀ s : List Char, splitSeq a b c s ≠ [] := by
  intro s
  match s with
  | [] => simp [splitSeq]
  | [x] => simp [splitSeq, consHead]
  | [x, y] => simp [splitSeq, consHead]
  | x :: y :: z :: rest =>
    by_cases h : x = a ∧ y = b ∧ z = c
    · simp [splitSeq, h]
    · have := splitSeq_ne_nil a b c (y :: z :: rest)
      rcases hs : splitSeq a b c (y :: z :: rest) with _ | ⟨p, ps⟩
      · exact absurd hs this
      · simp [splitSeq, h, hs, consHead]

/-- The first piece of `splitSeq` is an initial segment of the input. -/
theorem splitSeq_head_pre (a b c : Char) : ∀ (n : Nat) (s : List Char), s.length ≤ n →
    ∃ p ps t, splitSeq a b c s = p :: ps ∧ p ++ t = s := by
  intro n
  induction n with
  | zero =>
    intro s hs
    have hnil : s = [] := by
      cases s with
      | nil => rfl
      | cons x xs => simp at hs
    subst hnil
    exact ⟨[], [], [], by simp [splitSeq], rfl⟩
  | succ n ih =>
    intro s hs
    match s with
    | [] => exact ⟨[], [], [], by simp [splitSeq], rfl⟩
    | [x] => exact ⟨[x], [], [], by simp [splitSeq, consHead], rfl⟩
    | [x, y] => exact ⟨[x, y], [], [], by simp [splitSeq, consHead], rfl⟩
    | x :: y :: z :: rest =>
      by_cases h : x = a ∧ y = b ∧ z = c
      · exact ⟨[], splitSeq a b c rest, x :: y :: z :: rest, by simp [splitSeq, h], rfl⟩
      · have hlen : (y :: z :: rest).length ≤ n := by
          simp at hs ⊢; omega
        obtain ⟨p, ps, t, hsp, hpre⟩ := ih (y :: z :: rest) hlen
        refine ⟨x :: p, ps, t, ?_, ?_⟩
        · simp [splitSeq, h, hsp, consHead]
        · rw [List.cons_append, hpre]

/-- No piece produced by `splitSeq a b c` contains the separator
`[a, b, c]`. -/
theorem splitSeq_sep_free (a b c : Char) : ∀ (n : Nat) (s : List Char), s.length ≤ n →
    ∀ p ∈ splitSeq a b c s, ¬ InfixOf [a, b, c] p := by
  intro n
  induction n with
  | zero =>
    intro s hs p hp hinf
    have hnil : s = [] := by
      cases s with
      | nil => rfl
      | cons x xs => simp at hs
    subst hnil
    simp [splitSeq] at hp
    subst hp
    have := infixOf_length_le hinf
    simp at this
  | succ n ih =>
    intro s hs p hp hinf
    match s with
    | [] =>
      simp [splitSeq] at hp
      subst hp
      have := infixOf_length_le hinf
      simp at this
    | [x] =>
      simp [splitSeq, consHead] at hp
      subst hp
      have := infixOf_length_le hinf
      simp at this
    | [x, y] =>
      simp [splitSeq, consHead] at hp
      subst hp
      have := infixOf_length_le hinf
      simp at this
    | x :: y :: z :: rest =>
      by_cases h : x = a ∧ y = b ∧ z = c
      · rw [show splitSeq a b c (x :: y :: z :: rest) = [] :: splitSeq a b c rest by
          simp [splitSeq, h]] at hp
        rcases List.mem_cons.mp hp with hp | hp
        · subst hp
          have := infixOf_length_le hinf
          simp at this
        · exact ih rest (by simp at hs ⊢; omega) p hp hinf
      · have hlen : (y :: z :: rest).length ≤ n := by simp at hs ⊢; omega
        obtain ⟨p0, ps0, t0, hsp, hpre⟩ := splitSeq_head_pre a b c n (y :: z :: rest) hlen
        rw [show splitSeq a b c (x :: y :: z :: rest) = (x :: p0) :: ps0 by
          simp [splitSeq, h, hsp, consHead]] at hp
        rcases List.mem_cons.mp hp with hp | hp
        · subst hp
          obtain ⟨s1, t1, heq⟩ := hinf
          cases s1 with
          | nil =>
            simp at heq
            obtain ⟨hxa, hrest⟩ := heq
            have hp0 : p0 = b :: c :: t1 := hrest.symm
            rw [hp0] at hpre
            simp at hpre
            exact h ⟨hxa.symm, hpre.1.symm, hpre.2.1.symm⟩
          | cons w s1w =>
            simp at heq
            obtain ⟨hwx, hrest⟩ := heq
            have hin0 : InfixOf [a, b, c] p0 := ⟨s1w, t1, hrest⟩
            exact ih (y :: z :: rest) hlen p0 (by rw [hsp]; simp) hin0
        · exact ih (y :: z :: rest) hlen p (by rw [hsp]; simp [hp]) hinf

/-- `splitSeq` splits at every occurrence of the separator: an input
containing it produces at least two pieces. -/
theorem splitSeq_occurrence (a b c : Char) : ∀ (u v : List Char),
    2 ≤ (splitSeq a b c (u ++ a :: b :: c :: v)).length := by
  intro u
  induction u with
  | nil =>
    intro v
    simp only [List.nil_append]
    rw [show splitSeq a b c (a :: b :: c :: v) = [] :: splitSeq a b c v by
      simp [splitSeq]]
    have hne := splitSeq_ne_nil a b c v
    rcases hs : splitSeq a b c v with _ | ⟨p, ps⟩
    · exact absurd hs hne
    · simp
  | cons x u1 ih =>
    intro v
    have h3 : ∃ y z r, u1 ++ a :: b :: c :: v = y :: z :: r := by
      cases u1 with
      | nil => exact ⟨a, b, c :: v, rfl⟩
      | cons y u2 =>
        cases u2 with
        | nil => exact ⟨y, a, b :: c :: v, rfl⟩
        | cons z u3 => exact ⟨y, z, u3 ++ a :: b :: c :: v, rfl⟩
    obtain ⟨y, z, r, h3⟩ := h3
    have hcons : x :: u1 ++ a :: b :: c :: v = x :: y :: z :: r := by
      rw [List.cons_append, h3]
    rw [hcons]
    by_cases h : x = a ∧ y = b ∧ z = c
    · rw [show splitSeq a b c (x :: y :: z :: r) = [] :: splitSeq a b c r by
        simp [splitSeq, h]]
      have hne := splitSeq_ne_nil a b c r
      rcases hs : splitSeq a b c r with _ | ⟨p, ps⟩
      · exact absurd hs hne
      · simp
    · have ih2 := ih v
      rw [h3] at ih2
      rcases hs : splitSeq a b c (y :: z :: r) with _ | ⟨p, ps⟩
      · exact absurd hs (splitSeq_ne_nil a b c _)
      · rw [show splitSeq a b c (x :: y :: z :: r) = (x :: p) :: ps by
          simp [splitSeq, h, hs, consHead]]
        rw [hs] at ih2
        simpa using ih2

/-- Pieces of a stripped-and-filtered split are nonblank, stripped, and
free of the separator. -/
theorem split_pieces_props (a b c : Char) (s : List Char) :
    ∀ p ∈ ((splitSeq a b c s).map pyStrip).filter (fun x => x ≠ []),
      p ≠ [] ∧ pyStrip p = p ∧ ¬ InfixOf [a, b, c] p := by
  intro p hp
  rw [List.mem_filter] at hp
  obtain ⟨hmem, hne⟩ := hp
  rw [List.mem_map] at hmem
  obtain ⟨q, hq, hqp⟩ := hmem
  have hne2 : p ≠ [] := by simpa using hne
  refine ⟨hne2, ?_, ?_⟩
  · rw [← hqp]; exact pyStrip_idem q
  · intro hinf
    have hqfree := splitSeq_sep_free a b c s.length s (le_refl _) q hq
    obtain ⟨s1, t1, hdec⟩ := strip_decomp q
    have hstrip_in : InfixOf (pyStrip q) q := ⟨s1, t1, hdec⟩
    rw [← hqp] at hinf
    exact hqfree (infixOf_trans hinf hstrip_in)

/-- C3 (amended): the parser splits on every occurrence of the
substring `===` (blocks) and `---` (units), even inside a longer line:
an input containing the substring yields at least two pieces, every
surviving piece is whitespace-stripped, nonblank, and contains no
further occurrence of its delimiter, and whitespace-only pieces are
dropped wherever they occur. -/
theorem blocks_split_on_every_occurrence :
    (∀ content : List Char, ∀ p ∈ block_strings content,
       p ≠ [] ∧ pyStrip p = p ∧ ¬ InfixOf ['=', '=', '='] p)
    ∧ (∀ s : List Char, ∀ u ∈ unit_strings s,
       u ≠ [] ∧ pyStrip u = u ∧ ¬ InfixOf ['-', '-', '-'] u)
    ∧ (∀ u v : List Char, 2 ≤ (splitSeq '=' '=' '=' (u ++ ('=' :: '=' :: '=' :: v))).length)
    ∧ (∀ u v : List Char, 2 ≤ (splitSeq '-' '-' '-' (u ++ ('-' :: '-' :: '-' :: v))).length) := by
  refine ⟨?_, ?_, ?_, ?_⟩
  · intro content p hp
    exact split_pieces_props '=' '=' '=' content p hp
  · intro s u hu
    exact split_pieces_props '-' '-' '-' s u hu
  · exact splitSeq_occurrence '=' '=' '='
  · exact splitSeq_occurrence '-' '-' '-'

/-- C3 (counterexample): the single-line input `x===y` contains no line
consisting solely of `===`, yet it parses into two blocks — the code
splits on the substring `===` anywhere, not on delimiter lines. -/
theorem block_delimiter_not_line_based :
    okLength (parse_poems_to_structured_data (("x===y").data)) = 2
    ∧ (splitChar '\n' (("x===y").data)).contains (("===").data) = false := by
  decide

/-- C3 witness: the amended theorem applied to the block piece `x` of
the input `x===y`. -/
theorem blocks_split_on_every_occurrence_witness :
    ['x'] ≠ [] ∧ pyStrip ['x'] = ['x'] ∧ ¬ InfixOf ['=', '=', '='] ['x'] :=
  blocks_split_on_every_occurrence.1 (("x===y").data) ['x'] (by decide)

/-- C8: `a.jpg[200]` parses to filename `a.jpg` with width token `200`,
and `a.jpg` parses to the same filename with no width (the width is the
captured digit string, as in the Python code). -/
theorem media_grammar_examples :
    parse_image (("a.jpg[200]").data) = .ok ⟨("a.jpg").data, some (("200").data)⟩
    ∧ parse_image (("a.jpg").data) = .ok ⟨("a.jpg").data, none⟩ := by
  decide

/-- C9: `name[]` (empty width brackets) does not raise and parses
exactly like `name` alone: width absent. -/
theorem empty_width_brackets_ok :
    parse_image (("name[]").data) = .ok ⟨("name").data, none⟩
    ∧ parse_image (("name").data) = .ok ⟨("name").data, none⟩ := by
  decide

/-- C2 (counterexample): the grammar-violating token `a[b].jpg` does
not raise — `re.match` is not anchored at the end, so the match stops
at `a` and the rest is silently ignored. -/
theorem malformed_token_does_not_raise :
    parse_image (("a[b].jpg").data) = .ok ⟨['a'], none⟩ := by
  decide

/-! ## Escaping lemmas -/

/-- `pyReplace1` distributes over append. -/
theorem pyReplace1_append (old : Char) (new : List Char) :
    ∀ xs ys : List Char,
      pyReplace1 old new (xs ++ ys) = pyReplace1 old new xs ++ pyReplace1 old new ys := by
  intro xs ys
  induction xs with
  | nil => rfl
  | cons x xs ih => simp [pyReplace1, ih]

/-- The three sequential replacement passes of `html_escape` equal one
single pass: each character is escaped exactly once (the `&` introduced
by an earlier pass is never re-escaped) and no other character is
touched. -/
theorem html_escape_eq_onepass (s : List Char) : html_escape s = html_escape_onepass s := by
  induction s with
  | nil => rfl
  | cons c cs ih =>
    have step : html_escape (c :: cs)
        = pyReplace1 '>' (("&gt;").data) (pyReplace1 '<' (("&lt;").data)
            (if c = '&' then ("&amp;").data else [c])) ++ html_escape cs := by
      show pyReplace1 '>' (("&gt;").data) (pyReplace1 '<' (("&lt;").data)
          ((if c = '&' then ("&amp;").data else [c]) ++ pyReplace1 '&' (("&amp;").data) cs)) = _
      rw [pyReplace1_append, pyReplace1_append]
      rfl
    rw [step, ih]
    show _ = esc_char c ++ html_escape_onepass cs
    congr 1
    by_cases h1 : c = '&'
    · subst h1; decide
    · by_cases h2 : c = '<'
      · subst h2; decide
      · by_cases h3 : c = '>'
        · subst h3; decide
        · simp [esc_char, h1, h2, h3, pyReplace1]

/-! ## Excerpt lemmas -/

/-- Scanning lines for the first nonblank one distributes over append. -/
theorem first_nonblank_append : ∀ xs ys : List (List Char),
    first_nonblank (xs ++ ys)
      = match first_nonblank xs with
        | some t => some t
        | none => first_nonblank ys := by
  intro xs ys
  induction xs with
  | nil => rfl
  | cons l ls ih =>
    by_cases h : pyStrip l ≠ []
    · simp [first_nonblank, h]
    · simp [first_nonblank, h, ih]

/-- The unit loop of `get_first_poem_line` scans exactly the
concatenation of all units' text lines. -/
theorem gfpl_units_eq : ∀ us : List PoemUnit,
    get_first_poem_line_units us
      = match first_nonblank (catMap (fun u => u.poem_lines) us) with
        | some t => trimPunct t ++ ("...").data
        | none => ("Untitled...").data := by
  intro us
  induction us with
  | nil => rfl
  | cons u us ih =>
    show get_first_poem_line_units (u :: us) = _
    rw [show catMap (fun u => u.poem_lines) (u :: us)
        = u.poem_lines ++ catMap (fun u => u.poem_lines) us from rfl]
    rw [first_nonblank_append]
    by_cases hp : u.poem_lines ≠ []
    · cases hf : first_nonblank u.poem_lines with
      | some t => simp [get_first_poem_line_units, hp, hf]
      | none => simp [get_first_poem_line_units, hp, hf, ih]
    · have hpl : u.poem_lines = [] := by simpa using hp
      simp [get_first_poem_line_units, hpl, ih]
      rfl

/-- C5: HTML escaping replaces each occurrence of `&`, `<`, `>` exactly
once (one pass per character, so an input `&` never becomes
`&amp;amp;`), escapes no other character, and the escaped text is what
`generate_unit_html` renders inside the `<pre>` block. -/
theorem html_escape_exactly_once :
    (∀ s : List Char, html_escape s = html_escape_onepass s)
    ∧ (∀ u : PoemUnit, u.poem_lines ≠ [] →
        ∃ pre, generate_unit_html u
          = pre ++ ("  <pre>" ++ ofChars (html_escape (List.intercalate ['\n'] u.poem_lines))
              ++ "</pre>\n")) := by
  constructor
  · exact html_escape_eq_onepass
  · intro u h
    refine ⟨(String.join (u.links.map fun url =>
        "  <a href=\"" ++ ofChars url ++ "\" target=\"_blank\">" ++ ofChars url ++ "</a>\n"))
      ++ (if has_left_placement u then
            String.join (u.media.map fun g =>
              if g.placement = Placement.left then
                "  <div class=\"image-column\">\n"
                  ++ String.join (g.items.map fun m => "    " ++ generate_media_html m ++ "\n")
                  ++ "  </div>\n"
              else "")
          else ""), ?_⟩
    simp [generate_unit_html, h]

/-- C5 witness: the theorem applied to a unit with the single text line
`a&b<c>`. -/
theorem html_escape_exactly_once_witness :
    ∃ pre, generate_unit_html ⟨[], [], [], [("a&b<c>").data]⟩
      = pre ++ ("  <pre>"
          ++ ofChars (html_escape (List.intercalate ['\n'] [("a&b<c>").data]))
          ++ "</pre>\n") :=
  html_escape_exactly_once.2 ⟨[], [], [], [("a&b<c>").data]⟩ (by decide)

set_option maxRecDepth 4000 in
/-- C7: the TOC excerpt of a block is the first nonblank line of the
concatenation of all units' text lines in order, stripped, with one
trailing punctuation character trimmed and an ellipsis appended; when no
such line exists (in particular when no unit has any text line) it is
the fixed placeholder `Untitled...`.  The TOC entry renders exactly the
escaped excerpt as its link text. -/
theorem toc_excerpt_resolution :
    (∀ b : PoemBlock,
       get_first_poem_line b
         = match first_nonblank (catMap (fun u => u.poem_lines) b.units) with
           | some t => trimPunct t ++ ("...").data
           | none => ("Untitled...").data)
    ∧ (∀ (probe : List Char → Bool) (i : Nat) (b : PoemBlock), ∃ r1 r2,
        (toc_entry probe i b).data
          = r1 ++ (html_escape (get_first_poem_line b) ++ r2)) := by
  constructor
  · intro b
    exact gfpl_units_eq b.units
  · intro probe i b
    cases himg : get_first_image probe b with
    | some first_image =>
      refine ⟨("      <li style=\"display: flex; align-items: center; margin-bottom: 0.5em;\"><span style=\"font-weight: bold; min-width: 2.5em; margin-right: 0.5em;\">"
          ++ Nat.repr b.poem_number ++ ".</span>"
          ++ ("<img src=\"images/" ++ ofChars first_image
              ++ "\" alt=\"\" style=\"max-width: 96px; max-height: 96px; margin-right: 0.5em; vertical-align: middle; border-radius: 3px; cursor: default;\">")
          ++ "<a href=\"" ++ page_filename (i / POEMS_PER_PAGE + 1) ++ "#poem-"
          ++ Nat.repr b.poem_number ++ "\">").data,
        ("</a></li>\n").data, ?_⟩
      simp [toc_entry, himg, data_append, ofChars_data, List.append_assoc]
    | none =>
      refine ⟨("      <li style=\"display: flex; align-items: center; margin-bottom: 0.5em;\"><span style=\"font-weight: bold; min-width: 2.5em; margin-right: 0.5em;\">"
          ++ Nat.repr b.poem_number ++ ".</span>"
          ++ "<a href=\"" ++ page_filename (i / POEMS_PER_PAGE + 1) ++ "#poem-"
          ++ Nat.repr b.poem_number ++ "\">").data,
        ("</a></li>\n").data, ?_⟩
      simp [toc_entry, himg, data_append, ofChars_data, List.append_assoc]

/-! ## Error propagation lemmas -/

/-- Membership in `catMap`. -/
theorem mem_catMap {f : α → List β} : ∀ {l : List α} {x : β},
    x ∈ catMap f l ↔ ∃ a ∈ l, x ∈ f a := by
  intro l x
  induction l with
  | nil => simp [catMap]
  | cons a as ih => simp [catMap, ih, List.mem_append]

/-- `mapE` succeeds exactly when every element succeeds. -/
theorem mapE_ok_iff (f : α → Except String β) : ∀ l : List α,
    isOkE (mapE f l) = true ↔ ∀ a ∈ l, isOkE (f a) = true := by
  intro l
  induction l with
  | nil => simp [mapE, isOkE]
  | cons a as ih =>
    constructor
    · intro h x hx
      cases hf : f a with
      | error e =>
        rw [show mapE f (a :: as) = .error e by simp [mapE, hf]] at h
        simp [isOkE] at h
      | ok b =>
        cases hm : mapE f as with
        | error e =>
          rw [show mapE f (a :: as) = .error e by simp [mapE, hf, hm]] at h
          simp [isOkE] at h
        | ok bs =>
          rcases List.mem_cons.mp hx with hx | hx
          · subst hx; simp [hf, isOkE]
          · exact (ih.mp (by simp [hm, isOkE])) x hx
    · intro h
      have ha := h a (by simp)
      cases hf : f a with
      | error e => rw [hf] at ha; simp [isOkE] at ha
      | ok b =>
        have hrest : isOkE (mapE f as) = true :=
          ih.mpr (fun x hx => h x (by simp [hx]))
        cases hm : mapE f as with
        | error e => rw [hm] at hrest; simp [isOkE] at hrest
        | ok bs => simp [mapE, hf, hm, isOkE]

/-- A line classifies successfully exactly when all its media tokens
parse; all other line kinds never fail. -/
theorem classify_line_ok_iff (line : List Char) :
    isOkE (classify_line line) = true ↔
      ∀ tok ∈ line_media_tokens line, isOkE (parse_image tok) = true := by
  show isOkE (classify_line line) = true ↔
    ∀ tok ∈ line_media_tokens line, isOkE (parse_image tok) = true
  unfold classify_line line_media_tokens
  cases hp : (splitFirst ':' line).2 with
  | none => simp [hp, isOkE]
  | some rest =>
    by_cases h1 : pyStrip (splitFirst ':' line).1 = ("link").data
    · have hnot : ¬(pyStrip (splitFirst ':' line).1 = ("top").data
          ∨ pyStrip (splitFirst ':' line).1 = ("left").data) := by
        rw [h1]; decide
      simp [hp, h1, hnot, isOkE]
    · by_cases h2 : pyStrip (splitFirst ':' line).1 = ("audio").data
      · have hnot : ¬(pyStrip (splitFirst ':' line).1 = ("top").data
            ∨ pyStrip (splitFirst ':' line).1 = ("left").data) := by
          rw [h2]; decide
        simp [hp, h1, h2, hnot, isOkE]
      · by_cases h3 : pyStrip (splitFirst ':' line).1 = ("top").data
            ∨ pyStrip (splitFirst ':' line).1 = ("left").data
        · cases hm : mapE parse_image (media_tokens rest) with
          | error e =>
            have hiff := mapE_ok_iff parse_image (media_tokens rest)
            rw [hm] at hiff
            simp [isOkE] at hiff
            simp [hp, h1, h2, h3, hm, isOkE]
            obtain ⟨tok, htok, hbad⟩ := hiff
            exact ⟨tok, htok, hbad⟩
          | ok items =>
            have hall := (mapE_ok_iff parse_image (media_tokens rest)).mp
              (by simp [hm, isOkE])
            simp [hp, h1, h2, h3, hm, isOkE]
            intro tok htok
            exact hall tok htok
        · simp [hp, h1, h2, h3, isOkE]

/-- The unit line loop succeeds exactly when every line classifies. -/
theorem parse_unit_lines_ok_iff : ∀ lines : List (List Char),
    isOkE (parse_unit_lines lines) = true ↔
      ∀ line ∈ lines, isOkE (classify_line line) = true := by
  intro lines
  induction lines with
  | nil => simp [parse_unit_lines, isOkE]
  | cons line rest ih =>
    constructor
    · intro h x hx
      cases hc : classify_line line with
      | error e =>
        rw [show parse_unit_lines (line :: rest) = .error e by
          simp [parse_unit_lines, hc]] at h
        simp [isOkE] at h
      | ok item =>
        cases hr : parse_unit_lines rest with
        | error e =>
          rw [show parse_unit_lines (line :: rest) = .error e by
            simp [parse_unit_lines, hc, hr]] at h
          simp [isOkE] at h
        | ok u =>
          rcases List.mem_cons.mp hx with hx | hx
          · subst hx; simp [hc, isOkE]
          · exact (ih.mp (by simp [hr, isOkE])) x hx
    · intro h
      have ha := h line (by simp)
      cases hc : classify_line line with
      | error e => rw [hc] at ha; simp [isOkE] at ha
      | ok item =>
        have hrest : isOkE (parse_unit_lines rest) = true :=
          ih.mpr (fun x hx => h x (by simp [hx]))
        cases hr : parse_unit_lines rest with
        | error e => rw [hr] at hrest; simp [isOkE] at hrest
        | ok u => simp [parse_unit_lines, hc, hr, isOkE]

/-- A unit parses successfully exactly when all its media tokens do. -/
theorem parse_poem_unit_ok_iff (u : List Char) :
    isOkE (parse_poem_unit u) = true ↔
      ∀ tok ∈ unit_media_tokens u, isOkE (parse_image tok) = true := by
  rw [show parse_poem_unit u = parse_unit_lines (splitChar '\n' (pyStrip u)) from rfl]
  rw [parse_unit_lines_ok_iff]
  constructor
  · intro h tok htok
    obtain ⟨line, hline, htok⟩ := mem_catMap.mp htok
    exact (classify_line_ok_iff line).mp (h line hline) tok htok
  · intro h line hline
    exact (classify_line_ok_iff line).mpr
      (fun tok htok => h tok (mem_catMap.mpr ⟨line, hline, htok⟩))

/-- The block loop succeeds exactly when every block's units parse. -/
theorem parse_blocks_ok_iff (total : Nat) : ∀ (i : Nat) (bs : List (List Char)),
    isOkE (parse_blocks_indexed total i bs) = true ↔
      ∀ b ∈ bs, isOkE (mapE parse_poem_unit (unit_strings b)) = true := by
  intro i bs
  induction bs generalizing i with
  | nil => simp [parse_blocks_indexed, isOkE]
  | cons b bs ih =>
    constructor
    · intro h x hx
      cases hm : mapE parse_poem_unit (unit_strings b) with
      | error e =>
        rw [show parse_blocks_indexed total i (b :: bs) = .error e by
          simp [parse_blocks_indexed, hm]] at h
        simp [isOkE] at h
      | ok units =>
        cases hr : parse_blocks_indexed total (i + 1) bs with
        | error e =>
          rw [show parse_blocks_indexed total i (b :: bs) = .error e by
            simp [parse_blocks_indexed, hm, hr]] at h
          simp [isOkE] at h
        | ok rest =>
          rcases List.mem_cons.mp hx with hx | hx
          · subst hx; simp [hm, isOkE]
          · exact ((ih (i + 1)).mp (by simp [hr, isOkE])) x hx
    · intro h
      have ha := h b (by simp)
      cases hm : mapE parse_poem_unit (unit_strings b) with
      | error e => rw [hm] at ha; simp [isOkE] at ha
      | ok units =>
        have hrest : isOkE (parse_blocks_indexed total (i + 1) bs) = true :=
          (ih (i + 1)).mpr (fun x hx => h x (by simp [hx]))
        cases hr : parse_blocks_indexed total (i + 1) bs with
        | error e => rw [hr] at hrest; simp [isOkE] at hrest
        | ok rest => simp [parse_blocks_indexed, hm, hr, isOkE]

/-- C2 (amended): a media token after `top:`/`left:` raises the error
exactly when the stripped token is empty or begins with `[` or `]`
(tokens are pre-filtered non-blank, so effectively: begins with a
bracket); any other token — including grammar-violating ones such as
`a[b].jpg` — is accepted with the text after `name[digits]` silently
ignored.  This is still the only hard failure in parsing: the whole
parse succeeds iff every media token is accepted. -/
theorem media_token_error_condition :
    (∀ content : List Char,
       isOkE (parse_poems_to_structured_data content) = true ↔
         ∀ tok ∈ all_media_tokens content, isOkE (parse_image tok) = true)
    ∧ (∀ tok : List Char,
       isOkE (parse_image tok) = false ↔
         (pyStrip tok = [] ∨ (∃ r, pyStrip tok = '[' :: r) ∨ (∃ r, pyStrip tok = ']' :: r))) := by
  constructor
  · intro content
    rw [show parse_poems_to_structured_data content
        = parse_blocks_indexed (block_strings content).length 0 (block_strings content)
        from rfl]
    rw [parse_blocks_ok_iff]
    constructor
    · intro h tok htok
      obtain ⟨b, hb, htok⟩ := mem_catMap.mp htok
      obtain ⟨u, hu, htok⟩ := mem_catMap.mp htok
      have := (mapE_ok_iff parse_poem_unit (unit_strings b)).mp (h b hb) u hu
      exact (parse_poem_unit_ok_iff u).mp this tok htok
    · intro h b hb
      refine (mapE_ok_iff parse_poem_unit (unit_strings b)).mpr ?_
      intro u hu
      refine (parse_poem_unit_ok_iff u).mpr ?_
      intro tok htok
      exact h tok (mem_catMap.mpr ⟨b, hb, mem_catMap.mpr ⟨u, hu, htok⟩⟩)
  · intro tok
    cases hps : pyStrip tok with
    | nil => simp [parse_image, hps, isOkE]
    | cons c r =>
      by_cases hc : c = '[' ∨ c = ']'
      · constructor
        · intro _
          rcases hc with hc | hc
          · subst hc; exact Or.inr (Or.inl ⟨r, rfl⟩)
          · subst hc; exact Or.inr (Or.inr ⟨r, rfl⟩)
        · intro _
          simp [parse_image, hps, hc, isOkE]
      · constructor
        · intro h
          simp [parse_image, hps, hc, isOkE] at h
        · intro h
          rcases h with h | ⟨r2, h⟩ | ⟨r2, h⟩
          · cases h
          · cases h
            exact absurd (Or.inl rfl) hc
          · cases h
            exact absurd (Or.inr rfl) hc

/-- C2 witness: the theorem rejects the run with input `top: [x]`
(bracket-initial token) and confirms the bracket-initial error
condition on the token `[x]`. -/
theorem media_token_error_condition_witness :
    isOkE (parse_poems_to_structured_data (("top: [x]").data)) = false := by
  have h := media_token_error_condition.1 (("top: [x]").data)
  cases hb : isOkE (parse_poems_to_structured_data (("top: [x]").data)) with
  | false => rfl
  | true =>
    have hall := h.mp hb
    have hbad := hall (("[x]").data) (by decide)
    rw [show isOkE (parse_image (("[x]").data)) = false from by decide] at hbad
    cases hbad

/-- Evaluation of `parse_image` when the stripped token starts with a
non-bracket character. -/
theorem parse_image_eq_of_head {s : List Char} {c : Char} {r : List Char}
    (hps : pyStrip s = c :: r) (hc : ¬(c = '[' ∨ c = ']')) :
    parse_image s
      = .ok ⟨pyStrip ((c :: r).takeWhile (fun ch => !(ch == '[' || ch == ']'))),
          match (c :: r).dropWhile (fun ch => !(ch == '[' || ch == ']')) with
          | '[' :: r2 =>
            if r2.takeWhile Char.isDigit ≠ []
                ∧ (r2.drop (r2.takeWhile Char.isDigit).length).head? = some ']'
            then some (r2.takeWhile Char.isDigit) else none
          | _ => none⟩ := by
  simp [parse_image, hps, hc]

/-- The width computation of `parse_image`, characterized
declaratively: it returns `some ds` exactly when the unmatched
remainder is `[ds]<anything>` with `ds` nonempty digits. -/
theorem width_match_iff (post : List Char) (ds : List Char) :
    (match post with
      | '[' :: r2 =>
        if r2.takeWhile Char.isDigit ≠ []
            ∧ (r2.drop (r2.takeWhile Char.isDigit).length).head? = some ']'
        then some (r2.takeWhile Char.isDigit) else none
      | _ => none) = some ds ↔
      ds ≠ [] ∧ (∀ ch ∈ ds, Char.isDigit ch = true)
        ∧ ∃ r2, post = '[' :: (ds ++ ']' :: r2) := by
  cases hpost : post with
  | nil => simp
  | cons ch r2 =>
    by_cases hbr : ch = '['
    · subst hbr
      show (if r2.takeWhile Char.isDigit ≠ []
          ∧ (r2.drop (r2.takeWhile Char.isDigit).length).head? = some ']'
        then some (r2.takeWhile Char.isDigit) else none) = some ds ↔ _
      by_cases hcond : r2.takeWhile Char.isDigit ≠ []
          ∧ (r2.drop (r2.takeWhile Char.isDigit).length).head? = some ']'
      · rw [if_pos hcond]
        obtain ⟨hne, hhd⟩ := hcond
        rw [drop_tw_length] at hhd
        constructor
        · intro hds
          have hds2 : ds = r2.takeWhile Char.isDigit := by
            injection hds with h1; exact h1.symm
          subst hds2
          cases hdw2 : r2.dropWhile Char.isDigit with
          | nil => rw [hdw2] at hhd; simp at hhd
          | cons ch2 r3 =>
            rw [hdw2] at hhd
            simp at hhd
            subst hhd
            refine ⟨hne, fun ch3 hch3 => tw_mem hch3, r3, ?_⟩
            have hsplit : r2 = r2.takeWhile Char.isDigit ++ ']' :: r3 := by
              have h0 := List.takeWhile_append_dropWhile Char.isDigit r2
              rw [hdw2] at h0
              exact h0.symm
            conv_lhs => rw [hsplit]
        · rintro ⟨hne2, hdig, r3, hdec⟩
          have hr2 : r2 = ds ++ ']' :: r3 := by
            injection hdec with _ h1
          have htw : r2.takeWhile Char.isDigit = ds := by
            rw [hr2]
            exact tw_all_stop ds r3 (fun x hx => hdig x hx) (by decide)
          rw [htw]
      · rw [if_neg hcond]
        constructor
        · intro hds; exact absurd hds (by simp)
        · rintro ⟨hne2, hdig, r3, hdec⟩
          have hr2 : r2 = ds ++ ']' :: r3 := by
            injection hdec with _ h1
          have htw : r2.takeWhile Char.isDigit = ds := by
            rw [hr2]
            exact tw_all_stop ds r3 (fun x hx => hdig x hx) (by decide)
          refine absurd ⟨?_, ?_⟩ hcond
          · rw [htw]; exact hne2
          · rw [drop_tw_length]
            have hdw3 : r2.dropWhile Char.isDigit = ']' :: r3 := by
              have h0 := List.takeWhile_append_dropWhile Char.isDigit r2
              rw [htw] at h0
              rw [hr2] at h0
              rw [hr2]
              exact List.append_cancel_left h0
            rw [hdw3]
            rfl
    · have hm : (match (ch :: r2 : List Char) with
          | '[' :: r2 =>
            if r2.takeWhile Char.isDigit ≠ []
                ∧ (r2.drop (r2.takeWhile Char.isDigit).length).head? = some ']'
            then some (r2.takeWhile Char.isDigit) else none
          | _ => none) = none := by
        split
        · next r3 heq =>
          exfalso
          apply hbr
          injection heq with h1
        · rfl
      rw [hm]
      constructor
      · intro hds; exact absurd hds (by simp)
      · rintro ⟨hne2, hdig, r3, hdec⟩
        exfalso
        apply hbr
        injection hdec with h1

/-- C10: `parse_image` errors exactly when the whitespace-stripped
token is empty or bracket-initial; on success the stripped token
decomposes into a nonempty bracket-free head (the matched filename,
stripped again) followed by the unmatched remainder, and the width is
`some ds` exactly when that remainder begins with a literal `[ds]` for
nonempty digits `ds`; any remaining trailing text is ignored. -/
theorem parse_image_success_shape : ∀ s : List Char,
    (isOkE (parse_image s) = true ↔
       ∃ c t, pyStrip s = c :: t ∧ c ≠ '[' ∧ c ≠ ']')
    ∧ (∀ fn w, parse_image s = .ok ⟨fn, w⟩ →
        ∃ pre post, pre ++ post = pyStrip s ∧ pre ≠ []
          ∧ (∀ ch ∈ pre, ch ≠ '[' ∧ ch ≠ ']')
          ∧ (∀ ch r2, post = ch :: r2 → ch = '[' ∨ ch = ']')
          ∧ fn = pyStrip pre
          ∧ (∀ ds, w = some ds ↔
              ds ≠ [] ∧ (∀ ch ∈ ds, Char.isDigit ch = true)
                ∧ ∃ r2, post = '[' :: (ds ++ ']' :: r2))) := by
  intro s
  constructor
  · cases hps : pyStrip s with
    | nil => simp [parse_image, hps, isOkE]
    | cons c r =>
      by_cases hc : c = '[' ∨ c = ']'
      · constructor
        · intro h
          simp [parse_image, hps, hc, isOkE] at h
        · rintro ⟨cx, tx, heq, h1, h2⟩
          cases heq
          rcases hc with hc | hc
          · exact absurd hc h1
          · exact absurd hc h2
      · constructor
        · intro _
          push_neg at hc
          exact ⟨c, r, rfl, hc.1, hc.2⟩
        · intro _
          simp [parse_image, hps, hc, isOkE]
  · intro fn w h
    cases hps : pyStrip s with
    | nil => simp [parse_image, hps] at h
    | cons c r =>
      by_cases hc : c = '[' ∨ c = ']'
      · simp [parse_image, hps, hc] at h
      · rw [parse_image_eq_of_head hps hc] at h
        simp only [Except.ok.injEq, MediaInfo.mk.injEq] at h
        obtain ⟨hfn, hw⟩ := h
        have hnb : (!(c == '[' || c == ']')) = true := by
          simpa using hc
        refine ⟨(c :: r).takeWhile (fun ch => !(ch == '[' || ch == ']')),
                (c :: r).dropWhile (fun ch => !(ch == '[' || ch == ']')),
                List.takeWhile_append_dropWhile _ _, ?_, ?_, ?_, hfn.symm, ?_⟩
        · simp [List.takeWhile_cons, hnb]
          exact not_or.mp hc
        · intro ch hch
          have h2 := tw_mem hch
          simpa using h2
        · intro ch r2 hpost
          have h2 := dw_head hpost
          simp at h2
          by_cases hx : ch = '['
          · exact Or.inl hx
          · exact Or.inr (h2 hx)
        · intro ds
          rw [← hw]
          exact width_match_iff _ ds

/-- C10 witness: the success decomposition at the token
`a.jpg[200]xyz`, whose trailing `xyz` is ignored. -/
theorem parse_image_success_shape_witness :
    ∃ pre post, pre ++ post = pyStrip (("a.jpg[200]xyz").data) ∧ pre ≠ []
      ∧ (∀ ch ∈ pre, ch ≠ '[' ∧ ch ≠ ']')
      ∧ (∀ ch r2, post = ch :: r2 → ch = '[' ∨ ch = ']')
      ∧ ("a.jpg").data = pyStrip pre
      ∧ (∀ ds, (some (("200").data) : Option (List Char)) = some ds ↔
          ds ≠ [] ∧ (∀ ch ∈ ds, Char.isDigit ch = true)
            ∧ ∃ r2, post = '[' :: (ds ++ ']' :: r2)) :=
  (parse_image_success_shape (("a.jpg[200]xyz").data)).2 (("a.jpg").data)
    (some (("200").data)) (by decide)

/-- The enumerate loop assigns `total - (i + j)` to the `j`-th produced
block and preserves the block count. -/
theorem parse_blocks_indexed_numbering (total : Nat) :
    ∀ (bs : List (List Char)) (i : Nat) (blocks : List PoemBlock),
      parse_blocks_indexed total i bs = .ok blocks →
      blocks.length = bs.length ∧
        ∀ j (hj : j < blocks.length),
          (blocks.get ⟨j, hj⟩).poem_number = total - (i + j) := by
  intro bs
  induction bs with
  | nil =>
    intro i blocks h
    have hb : blocks = [] := by
      rw [show parse_blocks_indexed total i [] = .ok [] from rfl] at h
      injection h with h1
      exact h1.symm
    subst hb
    exact ⟨rfl, fun j hj => absurd hj (by simp)⟩
  | cons b bs ih =>
    intro i blocks h
    cases hm : mapE parse_poem_unit (unit_strings b) with
    | error e =>
      rw [show parse_blocks_indexed total i (b :: bs) = .error e by
        simp [parse_blocks_indexed, hm]] at h
      cases h
    | ok units =>
      cases hr : parse_blocks_indexed total (i + 1) bs with
      | error e =>
        rw [show parse_blocks_indexed total i (b :: bs) = .error e by
          simp [parse_blocks_indexed, hm, hr]] at h
        cases h
      | ok rest =>
        rw [show parse_blocks_indexed total i (b :: bs)
            = .ok (⟨total - i, units⟩ :: rest) by
          simp [parse_blocks_indexed, hm, hr]] at h
        have hb : blocks = ⟨total - i, units⟩ :: rest := by
          injection h with h1
          exact h1.symm
        subst hb
        obtain ⟨hlen, hnum⟩ := ih (i + 1) rest hr
        refine ⟨by simp [hlen], ?_⟩
        intro j hj
        cases j with
        | zero => simp
        | succ j =>
          have hj2 : j < rest.length := by simp at hj; omega
          have := hnum j hj2
          show (rest.get ⟨j, hj2⟩).poem_number = total - (i + (j + 1))
          rw [this]
          congr 1
          omega

/-- Successful parses number the block at source index `i` with
`totalBlocks - i`. -/
theorem parse_ok_numbering {content : List Char} {blocks : List PoemBlock}
    (h : parse_poems_to_structured_data content = .ok blocks) :
    ∀ i (hi : i < blocks.length),
      (blocks.get ⟨i, hi⟩).poem_number = blocks.length - i := by
  intro i hi
  have h2 := parse_blocks_indexed_numbering (block_strings content).length
    (block_strings content) 0 blocks h
  obtain ⟨hlen, hnum⟩ := h2
  have := hnum i hi
  rw [this, hlen]
  congr 1
  omega

set_option maxRecDepth 8000 in
/-- C1: the block at source index `i` of an `N`-block parse carries
`poemNumber = N - i`, and that same number is the HTML anchor id
(`poem-<n>` in `generate_block_html`'s opening tag), the TOC link
target (`<page>#poem-<n>` in the entry's `<a href>`), and the feed
entry id (`str(poem_number)`). -/
theorem poem_number_consistency : ∀ (content : List Char) (blocks : List PoemBlock),
    parse_poems_to_structured_data content = .ok blocks →
    ∀ (i : Nat) (hi : i < blocks.length),
      (blocks.get ⟨i, hi⟩).poem_number = blocks.length - i
      ∧ (∃ r, generate_block_html (blocks.get ⟨i, hi⟩)
          = ("<div class=\"poem-block\" id=\"poem-"
              ++ Nat.repr ((blocks.get ⟨i, hi⟩).poem_number) ++ "\">\n") ++ r)
      ∧ (∀ probe : List Char → Bool, ∃ r1 r2,
          (toc_entry probe i (blocks.get ⟨i, hi⟩)).data
            = r1 ++ (("<a href=\"" ++ page_filename (i / POEMS_PER_PAGE + 1) ++ "#poem-"
                ++ Nat.repr ((blocks.get ⟨i, hi⟩).poem_number) ++ "\">").data ++ r2))
      ∧ (atom_entry i (blocks.get ⟨i, hi⟩)).id
          = Nat.repr ((blocks.get ⟨i, hi⟩).poem_number) := by
  intro content blocks h i hi
  refine ⟨parse_ok_numbering h i hi, ⟨_, rfl⟩, ?_, rfl⟩
  intro probe
  cases himg : get_first_image probe (blocks.get ⟨i, hi⟩) with
  | some first_image =>
    refine ⟨("      <li style=\"display: flex; align-items: center; margin-bottom: 0.5em;\"><span style=\"font-weight: bold; min-width: 2.5em; margin-right: 0.5em;\">"
        ++ Nat.repr ((blocks.get ⟨i, hi⟩).poem_number) ++ ".</span>"
        ++ ("<img src=\"images/" ++ ofChars first_image
            ++ "\" alt=\"\" style=\"max-width: 96px; max-height: 96px; margin-right: 0.5em; vertical-align: middle; border-radius: 3px; cursor: default;\">")).data,
      (ofChars (html_escape (get_first_poem_line (blocks.get ⟨i, hi⟩)))
        ++ "</a></li>\n").data, ?_⟩
    simp only [List.get_eq_getElem] at himg ⊢
    simp [toc_entry, himg, data_append, ofChars_data, List.append_assoc]
  | none =>
    refine ⟨("      <li style=\"display: flex; align-items: center; margin-bottom: 0.5em;\"><span style=\"font-weight: bold; min-width: 2.5em; margin-right: 0.5em;\">"
        ++ Nat.repr ((blocks.get ⟨i, hi⟩).poem_number) ++ ".</span>").data,
      (ofChars (html_escape (get_first_poem_line (blocks.get ⟨i, hi⟩)))
        ++ "</a></li>\n").data, ?_⟩
    simp only [List.get_eq_getElem] at himg ⊢
    simp [toc_entry, himg, data_append, ofChars_data, List.append_assoc]

/-- C1 witness: the consistency conjunction at block 0 of the two-block
demonstration corpus (its `poem_number` is `2 = length - 0`). -/
theorem poem_number_consistency_witness :
    (demoBlocks.get ⟨0, by decide⟩).poem_number = demoBlocks.length - 0
    ∧ (∃ r, generate_block_html (demoBlocks.get ⟨0, by decide⟩)
        = ("<div class=\"poem-block\" id=\"poem-"
            ++ Nat.repr ((demoBlocks.get ⟨0, by decide⟩).poem_number) ++ "\">\n") ++ r)
    ∧ (∀ probe : List Char → Bool, ∃ r1 r2,
        (toc_entry probe 0 (demoBlocks.get ⟨0, by decide⟩)).data
          = r1 ++ (("<a href=\"" ++ page_filename (0 / POEMS_PER_PAGE + 1) ++ "#poem-"
              ++ Nat.repr ((demoBlocks.get ⟨0, by decide⟩).poem_number) ++ "\">").data ++ r2))
    ∧ (atom_entry 0 (demoBlocks.get ⟨0, by decide⟩)).id
        = Nat.repr ((demoBlocks.get ⟨0, by decide⟩).poem_number) :=
  poem_number_consistency demoContent demoBlocks (by decide) 0 (by decide)

/-- C6: every feed entry's `updated` is the synthetic timestamp
`epoch + poemNumber days` (in seconds), that timestamp is strictly
monotone in the poem number, the entry list is independent of the
wall-clock `now` used for the feed-level `updated`, and consequently
entries of a parsed corpus carry strictly decreasing timestamps in
source order — i.e. they sort in poem-number order. -/
theorem synthetic_feed_timestamps :
    (∀ (i : Nat) (b : PoemBlock),
       (atom_entry i b).updated = atom_entry_updated b.poem_number)
    ∧ (∀ p q : Nat, p < q → atom_entry_updated p < atom_entry_updated q)
    ∧ (∀ (n1 n2 : Nat) (blocks : List PoemBlock),
        (write_atom_feed n1 blocks).entries = (write_atom_feed n2 blocks).entries)
    ∧ (∀ (content : List Char) (blocks : List PoemBlock),
        parse_poems_to_structured_data content = .ok blocks →
        ∀ (i j : Nat) (hi : i < blocks.length) (hj : j < blocks.length), i < j →
          (atom_entry j (blocks.get ⟨j, hj⟩)).updated
            < (atom_entry i (blocks.get ⟨i, hi⟩)).updated) := by
  refine ⟨fun i b => rfl, ?_, fun n1 n2 blocks => rfl, ?_⟩
  · intro p q hpq
    simp only [atom_entry_updated, seconds_per_day]
    omega
  · intro content blocks h i j hi hj hij
    have hni := parse_ok_numbering h i hi
    have hnj := parse_ok_numbering h j hj
    show atom_entry_updated (blocks.get ⟨j, hj⟩).poem_number
      < atom_entry_updated (blocks.get ⟨i, hi⟩).poem_number
    rw [hni, hnj]
    simp only [atom_entry_updated, seconds_per_day]
    omega

/-- C6 witness: in the demonstration corpus the second entry's
timestamp is strictly below the first entry's. -/
theorem synthetic_feed_timestamps_witness :
    (atom_entry 1 (demoBlocks.get ⟨1, by decide⟩)).updated
      < (atom_entry 0 (demoBlocks.get ⟨0, by decide⟩)).updated :=
  synthetic_feed_timestamps.2.2.2 demoContent demoBlocks (by decide) 0 1
    (by decide) (by decide) (by decide)

/-! ## Pagination lemmas -/

/-- The page slices of `main`'s loop concatenate back to the whole
corpus, in order: every block is on exactly one page, with no gaps. -/
theorem page_slices_join : ∀ (T : Nat) (l : List PoemBlock),
    l.length ≤ POEMS_PER_PAGE * T →
    ((List.range T).map (fun j => page_slice l (j + 1))).flatten = l := by
  intro T
  induction T with
  | zero =>
    intro l hl
    have hnil : l = [] := by simpa using hl
    subst hnil
    rfl
  | succ T ih =>
    intro l hl
    rw [List.range_succ_eq_map, List.map_cons, List.map_map]
    have hhead : page_slice l (0 + 1) = l.take POEMS_PER_PAGE := by
      simp [page_slice]
    have hfun : ((fun j => page_slice l (j + 1)) ∘ Nat.succ)
        = fun j => page_slice (l.drop POEMS_PER_PAGE) (j + 1) := by
      funext j
      show (l.drop ((j + 1 + 1 - 1) * POEMS_PER_PAGE)).take POEMS_PER_PAGE
        = ((l.drop POEMS_PER_PAGE).drop ((j + 1 - 1) * POEMS_PER_PAGE)).take POEMS_PER_PAGE
      rw [List.drop_drop]
      congr 2
      rw [Nat.add_sub_cancel, Nat.add_sub_cancel, Nat.succ_mul]
      exact Nat.add_comm _ _
    rw [hfun]
    rw [List.flatten_cons]
    rw [hhead, ih (l.drop POEMS_PER_PAGE) (by
      rw [List.length_drop]
      rw [Nat.mul_succ] at hl
      omega)]
    exact List.take_append_drop _ l

/-- A chunk equal to the end marker has length 9. -/
theorem marker_len_eq {s : String} (h : ("The end.\n" : String) = s) : s.length = 9 := by
  rw [← h]
  rfl

/-- The fixed marker `The end.` is written exactly on the final page:
it is a chunk of `write_page` iff `page_num = total_pages` (no other
`f.write` call emits that exact chunk). -/
theorem end_marker_iff (cssV : Nat) (bs : List PoemBlock) (k T : Nat) :
    (("The end.\n" : String) ∈ write_page_chunks cssV bs k T) ↔ k = T := by
  constructor
  · intro hx
    by_contra hk
    rw [write_page_chunks, if_neg hk] at hx
    rcases List.mem_append.mp hx with hx | hx
    rotate_left
    · -- closing tags
      exact absurd hx (by decide)
    rcases List.mem_append.mp hx with hx | hx
    rotate_left
    · -- script chunks
      exact absurd hx (by decide)
    rcases List.mem_append.mp hx with hx | hx
    rotate_left
    · -- footer chunks
      exact absurd hx (by decide)
    rcases List.mem_append.mp hx with hx | hx
    rotate_left
    · -- next link
      by_cases h2 : k < T
      · rw [if_pos h2] at hx
        simp only [List.mem_cons, List.not_mem_nil, or_false] at hx
        have h9 := marker_len_eq hx
        simp only [length_append_str] at h9
        have hp : ("<a href=\"page").length = 13 := rfl
        omega
      · rw [if_neg h2] at hx
        exact absurd hx (List.not_mem_nil _)
    rcases List.mem_append.mp hx with hx | hx
    rotate_left
    · -- page x of y
      simp only [List.mem_cons, List.not_mem_nil, or_false] at hx
      have h9 := marker_len_eq hx
      simp only [length_append_str] at h9
      have hp1 : (" Page ").length = 6 := rfl
      have hp2 : (" of ").length = 4 := rfl
      have hp3 : (" ").length = 1 := rfl
      omega
    rcases List.mem_append.mp hx with hx | hx
    rotate_left
    · -- prev link
      by_cases h1 : 1 < k
      · rw [if_pos h1] at hx
        simp only [List.mem_cons, List.not_mem_nil, or_false] at hx
        have h9 := marker_len_eq hx
        simp only [length_append_str] at h9
        have hp : ("\">&laquo; Prev</a> ").length = 19 := rfl
        omega
      · rw [if_neg h1] at hx
        exact absurd hx (List.not_mem_nil _)
    rcases List.mem_append.mp hx with hx | hx
    rotate_left
    · -- pagination div
      exact absurd hx (by decide)
    rcases List.mem_append.mp hx with hx | hx
    rotate_left
    · -- removed conditional: empty list
      exact absurd hx (List.not_mem_nil _)
    rcases List.mem_append.mp hx with hx | hx
    rotate_left
    · -- block chunks
      simp only [List.mem_map] at hx
      obtain ⟨b, _, hb⟩ := hx
      have h9 := marker_len_eq hb.symm
      simp only [length_append_str] at h9
      have hp : ("\n    <hr>\n").length = 10 := rfl
      omega
    rcases List.mem_append.mp hx with hx | hx
    rotate_left
    · -- main open
      exact absurd hx (by decide)
    · -- header chunks
      rw [write_html_header_chunks] at hx
      simp only [List.mem_cons, List.not_mem_nil, or_false] at hx
      rcases hx with hx|hx|hx|hx|hx|hx|hx|hx|hx|hx|hx|hx|hx|hx|hx|hx
      · exact absurd hx (by decide)
      · exact absurd hx (by decide)
      · exact absurd hx (by decide)
      · exact absurd hx (by decide)
      · exact absurd hx (by decide)
      · exact absurd hx (by decide)
      · exact absurd hx (by decide)
      · exact absurd hx (by decide)
      · -- stylesheet link with css version
        have h9 := marker_len_eq hx
        simp only [length_append_str] at h9
        have hp : 9 < ("  <link rel=\"stylesheet\" href=\"style.css?v=").length := by decide
        omega
      · exact absurd hx (by decide)
      · exact absurd hx (by decide)
      · exact absurd hx (by decide)
      · exact absurd hx (by decide)
      · exact absurd hx (by decide)
      · exact absurd hx (by decide)
      · exact absurd hx (by decide)
  · intro hk
    subst hk
    rw [write_page_chunks, if_pos rfl]
    simp

/-- C4: `total_pages` is the ceiling of `N / 5` (characterized by its
Galois property), the 1-based page slices partition the corpus in order
with no gaps and no overlaps, `main` writes page `k` to
`page_filename k` with page 1 as the canonical `index.html`, and the
end-of-corpus marker is written exactly on the final page. -/
theorem pagination_partition : ∀ (blocks : List PoemBlock) (cssV : Nat),
    (∀ q : Nat, total_pages blocks.length ≤ q ↔ blocks.length ≤ POEMS_PER_PAGE * q)
    ∧ ((List.range (total_pages blocks.length)).map
          (fun j => page_slice blocks (j + 1))).flatten = blocks
    ∧ (main_pages cssV blocks).map Prod.fst
        = (List.range (total_pages blocks.length)).map (fun j => page_filename (j + 1))
    ∧ page_filename 1 = "index.html"
    ∧ (∀ (k T : Nat) (bs : List PoemBlock),
        (("The end.\n" : String) ∈ write_page_chunks cssV bs k T) ↔ k = T) := by
  intro blocks cssV
  refine ⟨?_, ?_, ?_, rfl, fun k T bs => end_marker_iff cssV bs k T⟩
  · intro q
    simp only [total_pages, POEMS_PER_PAGE]
    omega
  · refine page_slices_join (total_pages blocks.length) blocks ?_
    simp only [total_pages, POEMS_PER_PAGE]
    omega
  · simp [main_pages, List.map_map]

/-- C4 witness: the single page of a one-page corpus carries the end
marker. -/
theorem pagination_partition_witness :
    ("The end.\n" : String) ∈ write_page_chunks 0 [] 1 1 :=
  ((pagination_partition [] 0).2.2.2.2 1 1 []).mpr rfl
